import Mathlib

set_option autoImplicit false

/-!
Verification of the remote debug session bridge of `vscode_abap_remote_fs`
(`client/src/adt/debugger/variableManager.ts`).

The embedding mirrors the TypeScript source: JavaScript objects and `Map`s
become insertion-ordered association lists, the remote debugger API becomes a
pure environment of functions from addressable paths to variable records, and
the attach-listener loop becomes a recursion over the list of long-poll
outcomes.  Helpers that live outside the embedded file (`Handles` of
vscode-debugadapter, `idThread` / `STACK_THREAD_MULTIPLIER` of
`debugService.ts`, `debugMetaIsComplex` of abap-adt-api) are modelled from the
specification, as marked on each definition.
-/

namespace AbapFs

/-- A JavaScript object property assignment / `Map.set` on an insertion-ordered
association list: assigning an existing key overwrites its value in place,
assigning a new key appends it at the end. -/
def jsSet {κ α : Type} [BEq κ] (o : List (κ × α)) (k : κ) (v : α) : List (κ × α) :=
  if o.any (fun e => e.1 == k) then o.map (fun e => if e.1 == k then (k, v) else e)
  else o ++ [(k, v)]

/-- A JavaScript `Map` lookup for a map built from an entry list (as in
`new Map(entries)`): a later entry for the same key overwrites an earlier one,
so the last matching entry wins. -/
def jsGet {κ α : Type} [BEq κ] (entries : List (κ × α)) (k : κ) : Option α :=
  match entries with
  | [] => none
  | (k', v) :: rest =>
    match jsGet rest k with
    | some r => some r
    | none => if k' == k then some v else none

/-- The fields of the abap-adt-api `DebugVariable` wire record that
`variableManager.ts` reads. -/
structure DebugVariable where
  ID : String
  NAME : String
  META_TYPE : String
  TECHNICAL_TYPE : String
  VALUE : String
  TABLE_LINES : Nat
deriving Repr, DecidableEq

/-- Modelled from the spec: `debugMetaIsComplex` of abap-adt-api.  Simple and
string values are not complex ("simple/string values get handle 0"); every
other meta type is a complex, structurally expandable one. -/
def debugMetaIsComplex (m : String) : Bool :=
  !(m == "simple" || m == "string")

/-- `variableValue` of `variableManager.ts`: the display formatting of a
variable.  Tables render element type (falling back to the meta type when the
technical type is empty) and row count, object references render their raw
value, other complex types render the meta type, everything else the raw
value. -/
def variableValue (v : DebugVariable) : String :=
  if v.META_TYPE == "table" then
    (if v.TECHNICAL_TYPE == "" then v.META_TYPE else v.TECHNICAL_TYPE) ++ " " ++
      toString v.TABLE_LINES ++ " lines"
  else if v.META_TYPE == "objectref" then v.VALUE
  else if debugMetaIsComplex v.META_TYPE then v.META_TYPE
  else v.VALUE

/-- The remote debugger API as consumed by the table slice fetcher:
`fetchVar` is the per-key result of `debuggerVariables` (the remote serves one
value for every addressable path of a live table), `childVars` is
`debuggerChildVariables(id).variables`. -/
structure RemoteEnv where
  fetchVar : String → DebugVariable
  childVars : String → List DebugVariable

/-- The row key `` `${id}[${i + 1}]` `` used by `fetchTableSlice` for the row
at zero-based index `i`. -/
def rowKey (id : String) (i : Nat) : String :=
  id ++ "[" ++ toString (i + 1) ++ "]"

/-- A discovered field of a structured table row: its display name and the
suffix of its path relative to the row (`c.ID.slice(firstRow.ID.length)`). -/
structure TableField where
  name : String
  suffix : String
deriving Repr, DecidableEq

/-- The chunking loop of `fetchTableSlice`
(`for (let i = 0; i < allKeys.length; i += chunkSize)`), with explicit fuel so
the recursion is structural. -/
def chunkLoop {α : Type} (chunkSize : Nat) : Nat → List α → List (List α)
  | 0, _ => []
  | _, [] => []
  | fuel + 1, l => l.take chunkSize :: chunkLoop chunkSize fuel (l.drop chunkSize)

/-- Slice a list into consecutive chunks of `chunkSize` keys. -/
def chunksOf {α : Type} (chunkSize : Nat) (l : List α) : List (List α) :=
  chunkLoop chunkSize l.length l

/-- `pMap` of `variableManager.ts` drives a worker pool with bounded
concurrency, but writes each result to its input's index
(`results[i] = await mapper(array[i], i)`), so its value is the plain map of
the mapper over the list; the concurrency cap only schedules requests. -/
def pMap {α β : Type} (mapper : α → β) (l : List α) : List β :=
  l.map mapper

/-- One output row of `fetchTableSlice`: a JavaScript object, i.e. an
insertion-ordered association list from field name to formatted cell text. -/
abbrev SliceRow := List (String × String)

/-- Rebuild the output rows of a structured-table slice from the merged chunk
results: for each row index in `[start, start + len)`, look each discovered
field's key up in the key-indexed result map and format the cell
(`val ? variableValue(val) : ""`). -/
def rebuildRows (entries : List (String × DebugVariable)) (id : String)
    (fields : List TableField) (start len : Nat) : List SliceRow :=
  (List.range' start len).map fun i =>
    fields.foldl
      (fun o f =>
        jsSet o f.name
          (match jsGet entries (rowKey id i ++ f.suffix) with
           | some val => variableValue val
           | none => ""))
      []

/-- `fetchTableSlice` of `variableManager.ts`, with the chunk size as a
parameter (the source fixes it to 200): clamp the requested range to the
table's line count, fetch the first row to discover whether rows are scalar or
structured; in the structured case discover the field list from the first
row's children, fetch all cell keys in chunks through `pMap`, merge the
results into a key-indexed map and rebuild each row keyed by field name; in
the scalar case fetch the row keys directly and wrap each value as
`{VALUE: formatted}`. -/
def fetchTableSliceWith (chunkSize : Nat) (env : RemoteEnv) (v : DebugVariable)
    (start count : Nat) : List SliceRow :=
  if v.META_TYPE != "table" then []
  else
    let e := min (start + count) v.TABLE_LINES
    if start ≥ e then []
    else
      let firstRow := env.fetchVar (rowKey v.ID start)
      if firstRow.META_TYPE == "structure" then
        let children := env.childVars firstRow.ID
        let fields := children.map fun c =>
          TableField.mk c.NAME (c.ID.drop firstRow.ID.length)
        let allKeys := (List.range' start (e - start)).flatMap fun i =>
          fields.map fun f => rowKey v.ID i ++ f.suffix
        let chunks := chunksOf chunkSize allKeys
        let results := pMap (fun keys => keys.map env.fetchVar) chunks
        let flatResults := results.flatten
        let entries := flatResults.map fun r => (r.ID, r)
        rebuildRows entries v.ID fields start (e - start)
      else
        let keys := (List.range' start (e - start)).map (rowKey v.ID)
        (keys.map env.fetchVar).map fun lv => [("VALUE", variableValue lv)]

/-- `fetchTableSlice` as shipped: chunk size 200. -/
def fetchTableSlice (env : RemoteEnv) (v : DebugVariable) (start count : Nat) :
    List SliceRow :=
  fetchTableSliceWith 200 env v start count

/-- The field names discovered by `fetchTableSlice` from the children of the
first row of the slice. -/
def discoveredFields (env : RemoteEnv) (v : DebugVariable) (start : Nat) :
    List String :=
  (env.childVars (env.fetchVar (rowKey v.ID start)).ID).map (·.NAME)

theorem jsSet_keys {κ α : Type} [BEq κ] [LawfulBEq κ] (o : List (κ × α)) (k : κ) (v : α) :
    (jsSet o k v).map Prod.fst =
      if k ∈ o.map Prod.fst then o.map Prod.fst else o.map Prod.fst ++ [k] := by
  unfold jsSet
  by_cases h : ∃ e ∈ o, e.1 = k
  · have hany : o.any (fun e => e.1 == k) = true := by
      rw [List.any_eq_true]
      obtain ⟨e, he, hek⟩ := h
      exact ⟨e, he, by simpa using hek⟩
    have hmem : k ∈ o.map Prod.fst := by
      obtain ⟨e, he, hek⟩ := h
      exact List.mem_map.mpr ⟨e, he, hek⟩
    rw [if_pos hany, if_pos hmem, List.map_map]
    refine List.map_congr_left fun e _ => ?_
    by_cases hk : e.1 = k
    · simp [hk]
    · simp [hk]
  · have hany : o.any (fun e => e.1 == k) = false := by
      rw [Bool.eq_false_iff]
      intro hc
      rw [List.any_eq_true] at hc
      obtain ⟨e, he, hek⟩ := hc
      exact h ⟨e, he, by simpa using hek⟩
    have hmem : k ∉ o.map Prod.fst := by
      intro hc
      obtain ⟨e, he, hek⟩ := List.mem_map.mp hc
      exact h ⟨e, he, hek⟩
    rw [hany, if_neg (by simp), if_neg hmem]
    simp

/-- The keys of a row object built by repeated property assignment: they stay
duplicate-free and are exactly the starting keys plus the assigned names. -/
theorem foldl_jsSet_keys (cell : TableField → String) (fields : List TableField) :
    ∀ o : SliceRow, (o.map Prod.fst).Nodup →
      ((fields.foldl (fun o f => jsSet o f.name (cell f)) o).map Prod.fst).Nodup ∧
      ∀ k, k ∈ (fields.foldl (fun o f => jsSet o f.name (cell f)) o).map Prod.fst ↔
        (k ∈ o.map Prod.fst ∨ k ∈ fields.map (·.name)) := by
  induction fields with
  | nil => intro o ho; simpa using ho
  | cons f fs ih =>
    intro o ho
    have hkeys := jsSet_keys o f.name (cell f)
    have ho' : ((jsSet o f.name (cell f)).map Prod.fst).Nodup := by
      rw [hkeys]
      by_cases hm : f.name ∈ o.map Prod.fst
      · rwa [if_pos hm]
      · rw [if_neg hm]
        refine List.Nodup.append ho (List.nodup_singleton _) ?_
        intro a ha hb
        rw [List.mem_singleton] at hb
        exact hm (hb ▸ ha)
    obtain ⟨h1, h2⟩ := ih (jsSet o f.name (cell f)) ho'
    refine ⟨h1, fun k => ?_⟩
    rw [List.foldl_cons] at *
    rw [h2 k, hkeys]
    by_cases hm : f.name ∈ o.map Prod.fst
    · rw [if_pos hm]
      constructor
      · rintro (hk | hk)
        · exact Or.inl hk
        · exact Or.inr (by simp [hk])
      · rintro (hk | hk)
        · exact Or.inl hk
        · rcases (by simpa using hk : k = f.name ∨ k ∈ fs.map (·.name)) with h | h
          · exact Or.inl (h ▸ hm)
          · exact Or.inr h
    · rw [if_neg hm]
      simp only [List.mem_append, List.mem_singleton, List.map_cons, List.mem_cons]
      tauto

/-- Splitting a list into chunks and flattening them again is the identity, for
any positive chunk size. -/
theorem chunkLoop_flatten {α : Type} (chunkSize : Nat) (hc : 1 ≤ chunkSize) :
    ∀ fuel (l : List α), l.length ≤ fuel → (chunkLoop chunkSize fuel l).flatten = l := by
  intro fuel
  induction fuel with
  | zero =>
    intro l hl
    have : l = [] := List.length_eq_zero.mp (Nat.le_zero.mp hl)
    subst this; rfl
  | succ n ih =>
    intro l hl
    match l with
    | [] => rfl
    | x :: xs =>
      have hstep : chunkLoop chunkSize (n + 1) (x :: xs)
          = (x :: xs).take chunkSize :: chunkLoop chunkSize n ((x :: xs).drop chunkSize) := rfl
      have hlen : ((x :: xs).drop chunkSize).length ≤ n := by
        rw [List.length_drop]
        simp only [List.length_cons] at hl ⊢
        omega
      rw [hstep, List.flatten_cons, ih _ hlen, List.take_append_drop]

theorem chunksOf_flatten {α : Type} (chunkSize : Nat) (hc : 1 ≤ chunkSize) (l : List α) :
    (chunksOf chunkSize l).flatten = l :=
  chunkLoop_flatten chunkSize hc l.length l (Nat.le_refl _)

end AbapFs

namespace AbapFs

/-- The field list discovered by the structured branch of `fetchTableSlice`
from the children of the first fetched row. -/
def sliceFields (env : RemoteEnv) (v : DebugVariable) (start : Nat) : List TableField :=
  let firstRow := env.fetchVar (rowKey v.ID start)
  (env.childVars firstRow.ID).map fun c => TableField.mk c.NAME (c.ID.drop firstRow.ID.length)

/-- The full cell key list built by the structured branch of
`fetchTableSlice`: every row of the clamped range crossed with every
discovered field suffix. -/
def sliceKeys (env : RemoteEnv) (v : DebugVariable) (start len : Nat) : List String :=
  (List.range' start len).flatMap fun i =>
    (sliceFields env v start).map fun f => rowKey v.ID i ++ f.suffix

/-- The structured rows rebuilt with each cell looked up directly from the
remote environment, bypassing chunking and merging: the reference result the
chunked fetch is proved to coincide with. -/
def sliceRowsDirect (env : RemoteEnv) (id : String) (fields : List TableField)
    (start len : Nat) : List SliceRow :=
  (List.range' start len).map fun i =>
    fields.foldl
      (fun o f => jsSet o f.name (variableValue (env.fetchVar (rowKey id i ++ f.suffix)))) []

theorem fetchTableSliceWith_empty (c : Nat) (env : RemoteEnv) (v : DebugVariable)
    (start count : Nat) (he : min (start + count) v.TABLE_LINES ≤ start) :
    fetchTableSliceWith c env v start count = [] := by
  unfold fetchTableSliceWith
  by_cases hv : v.META_TYPE = "table"
  · simp [hv, he]
  · simp [hv]

theorem fetchTableSliceWith_structured (c : Nat) (env : RemoteEnv) (v : DebugVariable)
    (start count : Nat) (hv : v.META_TYPE = "table")
    (he : start < min (start + count) v.TABLE_LINES)
    (hs : (env.fetchVar (rowKey v.ID start)).META_TYPE = "structure") :
    fetchTableSliceWith c env v start count =
      rebuildRows
        (((chunksOf c (sliceKeys env v start (min (start + count) v.TABLE_LINES - start))).map
            (List.map env.fetchVar)).flatten.map fun r => (r.ID, r))
        v.ID (sliceFields env v start) start (min (start + count) v.TABLE_LINES - start) := by
  unfold fetchTableSliceWith
  simp [hv, Nat.not_le.mpr he, hs, sliceKeys, sliceFields, pMap]

theorem fetchTableSliceWith_scalar (c : Nat) (env : RemoteEnv) (v : DebugVariable)
    (start count : Nat) (hv : v.META_TYPE = "table")
    (he : start < min (start + count) v.TABLE_LINES)
    (hs : (env.fetchVar (rowKey v.ID start)).META_TYPE ≠ "structure") :
    fetchTableSliceWith c env v start count =
      (List.range' start (min (start + count) v.TABLE_LINES - start)).map
        fun i => [("VALUE", variableValue (env.fetchVar (rowKey v.ID i)))] := by
  unfold fetchTableSliceWith
  simp [hv, Nat.not_le.mpr he, hs, List.map_map, Function.comp]

/-- Looking a key up in a map whose entries all carry the value of one fixed
function of their key resolves to that function wherever the key occurs. -/
theorem jsGet_of_fun {κ α : Type} [BEq κ] [LawfulBEq κ] (f : κ → α) (keys : List κ) (k : κ) :
    jsGet (keys.map fun k' => (k', f k')) k = if k ∈ keys then some (f k) else none := by
  induction keys with
  | nil => simp [jsGet]
  | cons k0 rest ih =>
    rw [List.map_cons]
    show (match jsGet (rest.map fun k' => (k', f k')) k with
      | some r => some r
      | none => if k0 == k then some (f k0) else none) = _
    rw [ih]
    by_cases hk : k ∈ rest
    · simp [hk]
    · by_cases h0 : k0 = k
      · subst h0; simp [hk]
      · simp [hk, h0, Ne.symm h0]

/-- Rebuilding rows from merged chunk results equals the direct per-cell
lookup, provided every needed cell key was among the fetched keys and the
remote reports each value under its requested key. -/
theorem rebuildRows_of_fun (env : RemoteEnv) (id : String) (fields : List TableField)
    (start len : Nat) (keys : List String)
    (hsub : ∀ i ∈ List.range' start len, ∀ f ∈ fields, (rowKey id i ++ f.suffix) ∈ keys) :
    rebuildRows (keys.map fun k => (k, env.fetchVar k)) id fields start len =
      sliceRowsDirect env id fields start len := by
  unfold rebuildRows sliceRowsDirect
  refine List.map_congr_left fun i hi => ?_
  apply List.foldl_ext
  intro o f hf
  rw [jsGet_of_fun, if_pos (hsub i hi f hf)]

theorem chunked_fetch_eq (c : Nat) (hc : 1 ≤ c) (f : String → DebugVariable)
    (keys : List String) :
    ((chunksOf c keys).map (List.map f)).flatten = keys.map f := by
  rw [← List.map_flatten, chunksOf_flatten c hc]

/-- Every cell key of the slice is among the fetched keys. -/
theorem sliceKeys_complete (env : RemoteEnv) (v : DebugVariable) (start len : Nat) :
    ∀ i ∈ List.range' start len, ∀ f ∈ sliceFields env v start,
      (rowKey v.ID i ++ f.suffix) ∈ sliceKeys env v start len := by
  intro i hi f hf
  unfold sliceKeys
  rw [List.mem_flatMap]
  exact ⟨i, hi, List.mem_map.mpr ⟨f, hf, rfl⟩⟩

/-- For any positive chunk size, the chunked structured-table fetch rebuilds
exactly the rows obtained by looking every cell up directly, whenever the
remote reports each value under its requested key. -/
theorem fetchTableSliceWith_structured_direct (c : Nat) (hc : 1 ≤ c) (env : RemoteEnv)
    (v : DebugVariable) (start count : Nat) (hv : v.META_TYPE = "table")
    (he : start < min (start + count) v.TABLE_LINES)
    (hs : (env.fetchVar (rowKey v.ID start)).META_TYPE = "structure")
    (hid : ∀ k, (env.fetchVar k).ID = k) :
    fetchTableSliceWith c env v start count =
      sliceRowsDirect env v.ID (sliceFields env v start) start
        (min (start + count) v.TABLE_LINES - start) := by
  rw [fetchTableSliceWith_structured c env v start count hv he hs,
    chunked_fetch_eq c hc, List.map_map]
  have hentries :
      ((fun r : DebugVariable => (r.ID, r)) ∘ env.fetchVar) =
        fun k => (k, env.fetchVar k) := by
    funext k
    simp [Function.comp, hid k]
  rw [hentries]
  exact rebuildRows_of_fun env v.ID (sliceFields env v start) start
    (min (start + count) v.TABLE_LINES - start) _ (sliceKeys_complete env v start _)

theorem rebuildRows_length (entries : List (String × DebugVariable)) (id : String)
    (fields : List TableField) (start len : Nat) :
    (rebuildRows entries id fields start len).length = len := by
  simp [rebuildRows]

/-- Each rebuilt row carries exactly one key per field name, whatever the
merged chunk results hold. -/
theorem rebuildRows_row_keys (entries : List (String × DebugVariable)) (id : String)
    (fields : List TableField) (start len : Nat) :
    ∀ row ∈ rebuildRows entries id fields start len,
      (row.map Prod.fst).Nodup ∧
        ∀ k, k ∈ row.map Prod.fst ↔ k ∈ fields.map (·.name) := by
  intro row hrow
  unfold rebuildRows at hrow
  obtain ⟨i, hi, hrow⟩ := List.mem_map.mp hrow
  obtain ⟨h1, h2⟩ := foldl_jsSet_keys
    (fun f => match jsGet entries (rowKey id i ++ f.suffix) with
      | some val => variableValue val
      | none => "")
    fields [] (by simp)
  rw [← hrow]
  refine ⟨h1, fun k => ?_⟩
  rw [h2 k]
  simp

theorem sliceFields_names (env : RemoteEnv) (v : DebugVariable) (start : Nat) :
    (sliceFields env v start).map (·.name) = discoveredFields env v start := by
  simp [sliceFields, discoveredFields, List.map_map]

end AbapFs

namespace AbapFs

/-- C1: for every table descriptor and every `start` and `count`,
`fetchTableSlice` returns exactly `max(0, min(start + count, lineCount) - start)`
rows (the subtraction is truncated); it returns the empty list immediately
when the clamped range is empty; when the first fetched row is structured,
each returned row is an object with exactly one key per discovered field name;
when it is scalar, each returned row is the object `{VALUE: formatted value}`
of that row. -/
theorem fetchTableSlice_slice_shape (env : RemoteEnv) (v : DebugVariable)
    (start count : Nat) (hv : v.META_TYPE = "table") :
    (fetchTableSlice env v start count).length
        = min (start + count) v.TABLE_LINES - start ∧
    (min (start + count) v.TABLE_LINES ≤ start → fetchTableSlice env v start count = []) ∧
    ((env.fetchVar (rowKey v.ID start)).META_TYPE = "structure" →
      ∀ row ∈ fetchTableSlice env v start count,
        (row.map Prod.fst).Nodup ∧
          ∀ n, n ∈ row.map Prod.fst ↔ n ∈ discoveredFields env v start) ∧
    ((env.fetchVar (rowKey v.ID start)).META_TYPE ≠ "structure" →
      fetchTableSlice env v start count =
        (List.range' start (min (start + count) v.TABLE_LINES - start)).map
          fun i => [("VALUE", variableValue (env.fetchVar (rowKey v.ID i)))]) := by
  by_cases he : min (start + count) v.TABLE_LINES ≤ start
  · have h0 : fetchTableSlice env v start count = [] :=
      fetchTableSliceWith_empty 200 env v start count he
    refine ⟨?_, fun _ => h0, ?_, ?_⟩
    · rw [h0]
      simp only [List.length_nil]
      omega
    · intro _ row hrow
      rw [h0] at hrow
      simp at hrow
    · intro _
      rw [h0]
      have hz : min (start + count) v.TABLE_LINES - start = 0 := by omega
      rw [hz]
      rfl
  · push_neg at he
    by_cases hs : (env.fetchVar (rowKey v.ID start)).META_TYPE = "structure"
    · have heq := fetchTableSliceWith_structured 200 env v start count hv he hs
      refine ⟨?_, fun hc => absurd hc (by omega), ?_, fun hns => absurd hs hns⟩
      · rw [fetchTableSlice, heq, rebuildRows_length]
      · intro _ row hrow
        rw [fetchTableSlice, heq] at hrow
        obtain ⟨h1, h2⟩ := rebuildRows_row_keys _ _ _ _ _ row hrow
        refine ⟨h1, fun n => ?_⟩
        rw [h2 n, sliceFields_names]
    · have heq := fetchTableSliceWith_scalar 200 env v start count hv he hs
      refine ⟨?_, fun hc => absurd hc (by omega), fun hstruct => absurd hstruct hs,
        fun _ => heq⟩
      rw [fetchTableSlice, heq]
      simp

/-- A remote environment where every path resolves to a scalar character
variable whose value is its own key. -/
def scalarEnv : RemoteEnv :=
  ⟨fun k => ⟨k, k, "simple", "C", k, 0⟩, fun _ => []⟩

/-- A 10-row table descriptor. -/
def tenRowTable : DebugVariable :=
  ⟨"T", "LT_TAB", "table", "STANDARD_TABLE", "", 10⟩

/-- Witness for C1: slicing `[8, 18)` of a 10-row table yields exactly 2 rows. -/
theorem fetchTableSlice_slice_shape_witness :
    (fetchTableSlice scalarEnv tenRowTable 8 10).length = 2 := by
  have h := (fetchTableSlice_slice_shape scalarEnv tenRowTable 8 10 rfl).1
  rw [h]
  decide

theorem fetchTableSliceWith_not_table (c : Nat) (env : RemoteEnv) (v : DebugVariable)
    (start count : Nat) (hv : v.META_TYPE ≠ "table") :
    fetchTableSliceWith c env v start count = [] := by
  unfold fetchTableSliceWith
  simp [hv]

/-- Looking a key up in a map whose entry values are determined by their keys
through `g` resolves through `g` wherever the key occurs, independently of the
order and multiplicity of the entries. -/
theorem jsGet_of_keyed {κ α : Type} [BEq κ] [LawfulBEq κ] (g : κ → α)
    (entries : List (κ × α)) (hg : ∀ p ∈ entries, p.2 = g p.1) (k : κ) :
    jsGet entries k = if k ∈ entries.map Prod.fst then some (g k) else none := by
  induction entries with
  | nil => simp [jsGet]
  | cons p rest ih =>
    obtain ⟨k0, v0⟩ := p
    have hv0 : v0 = g k0 := hg (k0, v0) (List.mem_cons_self _ _)
    have hrest := ih fun q hq => hg q (List.mem_cons_of_mem _ hq)
    show (match jsGet rest k with
      | some r => some r
      | none => if k0 == k then some v0 else none) = _
    rw [hrest]
    by_cases hk : k ∈ rest.map Prod.fst
    · simp [hk]
    · by_cases h0 : k0 = k
      · subst h0
        simp [hk, hv0]
      · simp [hk, h0, Ne.symm h0]

/-- Row reassembly is by key lookup, so any permutation of the merged chunk
results (any completion order of the chunk requests) rebuilds the same rows. -/
theorem rebuildRows_perm (g : String → DebugVariable)
    (entries₁ entries₂ : List (String × DebugVariable)) (id : String)
    (fields : List TableField) (start len : Nat)
    (hg : ∀ p ∈ entries₁, p.2 = g p.1) (hp : entries₁.Perm entries₂) :
    rebuildRows entries₁ id fields start len = rebuildRows entries₂ id fields start len := by
  have hg₂ : ∀ p ∈ entries₂, p.2 = g p.1 := fun p hq => hg p (hp.mem_iff.mpr hq)
  unfold rebuildRows
  refine List.map_congr_left fun i _ => ?_
  apply List.foldl_ext
  intro o f _
  have h12 : jsGet entries₁ (rowKey id i ++ f.suffix) =
      jsGet entries₂ (rowKey id i ++ f.suffix) := by
    rw [jsGet_of_keyed g entries₁ hg, jsGet_of_keyed g entries₂ hg₂]
    by_cases hk : (rowKey id i ++ f.suffix) ∈ entries₁.map Prod.fst
    · rw [if_pos hk, if_pos ((hp.map Prod.fst).mem_iff.mp hk)]
    · rw [if_neg hk, if_neg (fun hc => hk ((hp.map Prod.fst).mem_iff.mpr hc))]
  rw [h12]

/-- A concrete structured 10-row × 3-field remote table: every row key
resolves to a structure, every cell key to a scalar whose value is the key. -/
def conRowKeys : List String := (List.range' 0 10).map (rowKey "T")

def conVar (k : String) : DebugVariable :=
  if conRowKeys.contains k then ⟨k, k, "structure", "", "", 0⟩
  else ⟨k, k, "simple", "C", k, 0⟩

def conChildren (id : String) : List DebugVariable :=
  [⟨id ++ "-A", "A", "simple", "C", "", 0⟩, ⟨id ++ "-B", "B", "simple", "C", "", 0⟩,
   ⟨id ++ "-C", "C", "simple", "C", "", 0⟩]

def conEnv : RemoteEnv := ⟨conVar, conChildren⟩

def conTable : DebugVariable := ⟨"T", "LT_TAB", "table", "STANDARD_TABLE", "", 10⟩

theorem conEnv_id : ∀ k, (conEnv.fetchVar k).ID = k := by
  intro k
  show (conVar k).ID = k
  unfold conVar
  split <;> rfl

/-- C4: the rows returned for a structured-table slice do not depend on how
the cell key list is chunked (any two positive chunk sizes agree) nor on the
order in which chunk responses complete (row reassembly is by key lookup over
the merged results); concretely, a 10-row × 3-field structured table sliced
with `start = 0, count = 10` yields the same 10 rows, each keyed by the 3
discovered field names, for chunk sizes 1, 2 and 200. -/
theorem fetchTableSlice_chunking_irrelevant :
    (∀ (env : RemoteEnv) (v : DebugVariable) (start count c₁ c₂ : Nat),
        1 ≤ c₁ → 1 ≤ c₂ → (∀ k, (env.fetchVar k).ID = k) →
        fetchTableSliceWith c₁ env v start count = fetchTableSliceWith c₂ env v start count) ∧
    (∀ (g : String → DebugVariable) (entries₁ entries₂ : List (String × DebugVariable))
        (id : String) (fields : List TableField) (start len : Nat),
        (∀ p ∈ entries₁, p.2 = g p.1) → entries₁.Perm entries₂ →
        rebuildRows entries₁ id fields start len = rebuildRows entries₂ id fields start len) ∧
    fetchTableSliceWith 1 conEnv conTable 0 10 = fetchTableSlice conEnv conTable 0 10 ∧
    fetchTableSliceWith 2 conEnv conTable 0 10 = fetchTableSlice conEnv conTable 0 10 ∧
    (fetchTableSlice conEnv conTable 0 10).length = 10 ∧
    ∀ row ∈ fetchTableSlice conEnv conTable 0 10, row.map Prod.fst = ["A", "B", "C"] := by
  refine ⟨?_, ?_, by decide, by decide, by decide, by decide⟩
  · intro env v start count c₁ c₂ hc₁ hc₂ hid
    by_cases hv : v.META_TYPE = "table"
    · by_cases he : min (start + count) v.TABLE_LINES ≤ start
      · rw [fetchTableSliceWith_empty c₁ env v start count he,
          fetchTableSliceWith_empty c₂ env v start count he]
      · push_neg at he
        by_cases hs : (env.fetchVar (rowKey v.ID start)).META_TYPE = "structure"
        · rw [fetchTableSliceWith_structured_direct c₁ hc₁ env v start count hv he hs hid,
            fetchTableSliceWith_structured_direct c₂ hc₂ env v start count hv he hs hid]
        · rw [fetchTableSliceWith_scalar c₁ env v start count hv he hs,
            fetchTableSliceWith_scalar c₂ env v start count hv he hs]
    · rw [fetchTableSliceWith_not_table c₁ env v start count hv,
        fetchTableSliceWith_not_table c₂ env v start count hv]
  · intro g entries₁ entries₂ id fields start len hg hp
    exact rebuildRows_perm g entries₁ entries₂ id fields start len hg hp

/-- Witness for C4: chunk sizes 1 and 200 agree on the concrete table, and a
swapped arrival order of the merged results rebuilds the same rows. -/
theorem fetchTableSlice_chunking_irrelevant_witness :
    fetchTableSliceWith 1 conEnv conTable 0 10 = fetchTableSliceWith 200 conEnv conTable 0 10 ∧
    rebuildRows [("a", conVar "a"), ("b", conVar "b")] "T" [⟨"F", ""⟩] 0 1 =
      rebuildRows [("b", conVar "b"), ("a", conVar "a")] "T" [⟨"F", ""⟩] 0 1 :=
  ⟨fetchTableSlice_chunking_irrelevant.1 conEnv conTable 0 10 1 200 (by decide) (by decide)
      conEnv_id,
    fetchTableSlice_chunking_irrelevant.2.1 conVar _ _ "T" [⟨"F", ""⟩] 0 1
      (by
        intro p hp
        simp only [List.mem_cons, List.not_mem_nil, or_false] at hp
        rcases hp with h | h <;> (subst h; rfl))
      (List.Perm.swap _ _ _)⟩

end AbapFs

namespace AbapFs

/-- The reachable tree of a remote variable: its wire record together with the
variables the recursion of `dumpJson` fetches below it — the components of a
structure, the `lineCount` rows of a table. -/
inductive DTree where
  | node (v : DebugVariable) (children : List DTree)

def DTree.info : DTree → DebugVariable
  | .node v _ => v

def DTree.children : DTree → List DTree
  | .node _ cs => cs

/-- JavaScript values produced by `dumpJson`: `undefined` stands for the
JavaScript value of that name (returned for a missing variable or a meta type
no switch case handles); `num` keeps the string handed to `Number(...)`
symbolically. -/
inductive JsValue where
  | undefined
  | num (source : String)
  | str (s : String)
  | obj (fields : List (String × JsValue))
  | arr (elems : List JsValue)

/-- JavaScript `trimEnd`: strip trailing whitespace. -/
def trimEnd (s : String) : String :=
  ⟨(s.data.reverse.dropWhile Char.isWhitespace).reverse⟩

def numericTypeTokens : List String :=
  ["B", "S", "I", "INT8", "P", "N", "DECFLOAT16", "DECFLOAT34", "F"]

/-- Substring containment: `needle` occurs contiguously in the second list. -/
def containsSub (needle : List Char) : List Char → Bool
  | [] => needle.isEmpty
  | c :: rest => needle.isPrefixOf (c :: rest) || containsSub needle rest

/-- `TECHNICAL_TYPE.match(/B|S|I|INT8|P|N|DECFLOAT16|DECFLOAT34|F/)`: the
regex is an alternation of literals, so it matches iff some alternative
occurs as a substring of the technical type. -/
def matchesNumericType (t : String) : Bool :=
  numericTypeTokens.any fun tok => containsSub tok.data t.data

/-- The meta types `dumpJson`'s switch maps to `"Unprocessable:<metaType>"`. -/
def unprocessableMetas : List String :=
  ["unknown", "dataref", "boxedcomp", "anonymcomp", "objectref", "class", "object", "boxref"]

/-- Modelled from the spec: the values of the external `DebugMetaType` union
of abap-adt-api — the spec's meta-type enumeration (simple, string,
structure, table, object reference, data reference, class, unknown, ...)
together with the boxed/anonymous component, object and box reference
variants the source's switch handles. -/
def isMetaType (m : String) : Bool :=
  m == "simple" || m == "string" || m == "structure" || m == "table" ||
    unprocessableMetas.contains m

mutual

/-- `dumpJson` of `variableManager.ts` over the reachable variable tree:
numeric-typed simple values parse to numbers, other simple and string values
are trimmed, structures recurse per component into an object keyed by
component name, tables recurse over all fetched rows into an array, the
remaining meta types yield `"Unprocessable:<metaType>"`, and a meta type with
no switch case yields `undefined`. -/
def dumpJson : DTree → JsValue
  | .node v children =>
    if v.META_TYPE == "simple" then
      if matchesNumericType v.TECHNICAL_TYPE then .num v.VALUE else .str (trimEnd v.VALUE)
    else if v.META_TYPE == "string" then .str (trimEnd v.VALUE)
    else if v.META_TYPE == "structure" then .obj (dumpFields children [])
    else if v.META_TYPE == "table" then .arr (dumpRows children)
    else if unprocessableMetas.contains v.META_TYPE then
      .str ("Unprocessable:" ++ v.META_TYPE)
    else .undefined

/-- The structure loop of `dumpJson`: `str[comp.NAME] = await dumpJson(comp)`
for each component, in order. -/
def dumpFields : List DTree → List (String × JsValue) → List (String × JsValue)
  | [], acc => acc
  | c :: cs, acc => dumpFields cs (jsSet acc c.info.NAME (dumpJson c))

/-- The table loop of `dumpJson`: push `dumpJson` of every fetched row. -/
def dumpRows : List DTree → List JsValue
  | [] => []
  | c :: cs => dumpJson c :: dumpRows cs

end

theorem jsSet_fresh {κ α : Type} [BEq κ] [LawfulBEq κ] (o : List (κ × α)) (k : κ) (v : α)
    (hk : k ∉ o.map Prod.fst) : jsSet o k v = o ++ [(k, v)] := by
  unfold jsSet
  rw [if_neg]
  intro hc
  rw [List.any_eq_true] at hc
  obtain ⟨e, he, hek⟩ := hc
  exact hk (List.mem_map.mpr ⟨e, he, by simpa using hek⟩)

theorem dumpRows_eq_map (cs : List DTree) : dumpRows cs = cs.map dumpJson := by
  induction cs with
  | nil => rfl
  | cons c cs ih => rw [dumpRows, ih, List.map_cons]

/-- Under duplicate-free component names, the structure loop of `dumpJson`
appends one field per component, keyed by its name, in component order. -/
theorem dumpFields_eq_map (cs : List DTree) :
    ∀ acc : List (String × JsValue),
      (cs.map fun c => c.info.NAME).Nodup →
      (∀ c ∈ cs, c.info.NAME ∉ acc.map Prod.fst) →
      dumpFields cs acc = acc ++ cs.map fun c => (c.info.NAME, dumpJson c) := by
  induction cs with
  | nil => intro acc _ _; simp [dumpFields]
  | cons c cs ih =>
    intro acc hnd hfresh
    rw [dumpFields, jsSet_fresh _ _ _ (hfresh c (List.mem_cons_self _ _)),
      ih _ (List.Nodup.of_cons hnd) ?_]
    · simp
    · intro c' hc'
      rw [List.map_append]
      intro hc
      rcases List.mem_append.mp hc with h | h
      · exact hfresh c' (List.mem_cons_of_mem _ hc') h
      · simp only [List.map_cons, List.map_nil, List.mem_singleton] at h
        rw [List.map_cons, List.nodup_cons] at hnd
        exact hnd.1 (h ▸ List.mem_map.mpr ⟨c', hc', rfl⟩)

end AbapFs

namespace AbapFs

/-- C2: `dumpJson` materializes every reachable variable tree — a simple
variable of numeric technical type parses to a number, other simple and
string values are returned with trailing padding trimmed, a structure
recurses per component into an object keyed by component name, a table
recurses over all `lineCount` fetched rows into an array, and every other
meta type of the `DebugMetaType` union (object/data/box references, class,
object, boxed and anonymous components, unknown) yields the literal string
`"Unprocessable:<metaType>"`; no valid meta type makes it fail (return
`undefined`). -/
theorem dumpJson_materialization (t : DTree) :
    (t.info.META_TYPE = "simple" → matchesNumericType t.info.TECHNICAL_TYPE = true →
      dumpJson t = .num t.info.VALUE) ∧
    (t.info.META_TYPE = "simple" → matchesNumericType t.info.TECHNICAL_TYPE = false →
      dumpJson t = .str (trimEnd t.info.VALUE)) ∧
    (t.info.META_TYPE = "string" → dumpJson t = .str (trimEnd t.info.VALUE)) ∧
    (t.info.META_TYPE = "structure" →
      (t.children.map fun c => c.info.NAME).Nodup →
      dumpJson t = .obj (t.children.map fun c => (c.info.NAME, dumpJson c))) ∧
    (t.info.META_TYPE = "table" → t.children.length = t.info.TABLE_LINES →
      dumpJson t = .arr (t.children.map dumpJson) ∧
        (t.children.map dumpJson).length = t.info.TABLE_LINES) ∧
    (t.info.META_TYPE ∈ unprocessableMetas →
      dumpJson t = .str ("Unprocessable:" ++ t.info.META_TYPE)) ∧
    (isMetaType t.info.META_TYPE = true → dumpJson t ≠ .undefined) := by
  obtain ⟨v, cs⟩ := t
  have hinfo : (DTree.node v cs).info = v := rfl
  have hch : (DTree.node v cs).children = cs := rfl
  rw [hinfo, hch]
  refine ⟨?_, ?_, ?_, ?_, ?_, ?_, ?_⟩
  · intro hm hn
    simp [dumpJson, hm, hn]
  · intro hm hn
    simp [dumpJson, hm, hn]
  · intro hm
    simp [dumpJson, hm]
  · intro hm hnd
    rw [dumpJson]
    simp only [hm]
    rw [show (("structure" == "simple") = false) from rfl,
      show (("structure" == "string") = false) from rfl,
      show (("structure" == "structure") = true) from rfl]
    simp only [Bool.false_eq_true, if_false, if_true]
    rw [dumpFields_eq_map cs [] hnd (by simp), List.nil_append]
  · intro hm hlen
    constructor
    · rw [dumpJson]
      simp only [hm]
      rw [show (("table" == "simple") = false) from rfl,
        show (("table" == "string") = false) from rfl,
        show (("table" == "structure") = false) from rfl,
        show (("table" == "table") = true) from rfl]
      simp only [Bool.false_eq_true, if_false, if_true]
      rw [dumpRows_eq_map]
    · rw [List.length_map]
      exact hlen
  · intro hm
    have h1 : v.META_TYPE ≠ "simple" := by
      intro h; rw [h] at hm; simp [unprocessableMetas] at hm
    have h2 : v.META_TYPE ≠ "string" := by
      intro h; rw [h] at hm; simp [unprocessableMetas] at hm
    have h3 : v.META_TYPE ≠ "structure" := by
      intro h; rw [h] at hm; simp [unprocessableMetas] at hm
    have h4 : v.META_TYPE ≠ "table" := by
      intro h; rw [h] at hm; simp [unprocessableMetas] at hm
    have hcont : unprocessableMetas.contains v.META_TYPE = true := by
      simpa using hm
    simp [dumpJson, h1, h2, h3, h4, hcont]
    exact hm
  · intro hv
    by_cases h1 : v.META_TYPE = "simple"
    · rw [dumpJson]
      simp only [h1, show (("simple" : String) == "simple") = true from rfl, if_true]
      split <;> simp
    by_cases h2 : v.META_TYPE = "string"
    · rw [dumpJson]
      simp [h2]
    by_cases h3 : v.META_TYPE = "structure"
    · rw [dumpJson]
      simp [h3]
    by_cases h4 : v.META_TYPE = "table"
    · rw [dumpJson]
      simp [h4]
    have hcont : unprocessableMetas.contains v.META_TYPE = true := by
      have e1 : (v.META_TYPE == "simple") = false := beq_eq_false_iff_ne.mpr h1
      have e2 : (v.META_TYPE == "string") = false := beq_eq_false_iff_ne.mpr h2
      have e3 : (v.META_TYPE == "structure") = false := beq_eq_false_iff_ne.mpr h3
      have e4 : (v.META_TYPE == "table") = false := beq_eq_false_iff_ne.mpr h4
      simp only [isMetaType, e1, e2, e3, e4, Bool.false_or] at hv
      exact hv
    rw [dumpJson]
    simp [h1, h2, h3, h4, hcont]
    exact List.mem_of_elem_eq_true hcont

/-- A concrete 2-row table of structures with two numeric fields each. -/
def conCell (n : String) (val : String) : DTree :=
  .node ⟨"T[1]-" ++ n, n, "simple", "I", val, 0⟩ []

def conRow (i : Nat) : DTree :=
  .node ⟨"T[" ++ toString i ++ "]", "", "structure", "", "", 0⟩
    [conCell "A" (toString i), conCell "B" (toString (i * 10))]

def conDumpTable : DTree :=
  .node ⟨"T", "LT_TAB", "table", "STANDARD_TABLE", "", 2⟩ [conRow 1, conRow 2]

def conClassVar : DTree := .node ⟨"LO_OBJ", "LO_OBJ", "class", "", "", 0⟩ []

/-- Witness for C2: the concrete table materializes into a 2-element array of
objects, and a class variable yields `"Unprocessable:class"`. -/
theorem dumpJson_materialization_witness :
    dumpJson conDumpTable =
      .arr [.obj [("A", .num "1"), ("B", .num "10")],
            .obj [("A", .num "2"), ("B", .num "20")]] ∧
    dumpJson conClassVar = .str "Unprocessable:class" := by
  constructor
  · have h := ((dumpJson_materialization conDumpTable).2.2.2.2.1 rfl rfl).1
    rw [h]
    have hr1 := (dumpJson_materialization (conRow 1)).2.2.2.1 rfl (by decide)
    have hr2 := (dumpJson_materialization (conRow 2)).2.2.2.1 rfl (by decide)
    have hc1 := (dumpJson_materialization (conCell "A" "1")).1 rfl (by decide)
    have hc2 := (dumpJson_materialization (conCell "B" "10")).1 rfl (by decide)
    have hc3 := (dumpJson_materialization (conCell "A" "2")).1 rfl (by decide)
    have hc4 := (dumpJson_materialization (conCell "B" "20")).1 rfl (by decide)
    refine congrArg JsValue.arr ?_
    show [dumpJson (conRow 1), dumpJson (conRow 2)] = _
    rw [hr1, hr2]
    show [JsValue.obj [("A", dumpJson (conCell "A" "1")), ("B", dumpJson (conCell "B" "10"))],
      JsValue.obj [("A", dumpJson (conCell "A" "2")), ("B", dumpJson (conCell "B" "20"))]] = _
    rw [hc1, hc2, hc3, hc4]
    rfl
  · exact (dumpJson_materialization conClassVar).2.2.2.2.2.1 (by decide)

end AbapFs

namespace AbapFs

/-- Modelled from the spec: the fixed per-thread multiplier of the handle and
frame-id encoding scheme of `debugService.ts`.  The spec fixes the scheme (a
per-thread base plus a monotonically increasing sequence number, decodable
without a lookup), not the constant; any multiplier exceeding the per-thread
sequence space realizes it. -/
def STACK_THREAD_MULTIPLIER : Nat := 1000000

/-- Modelled from the spec: `idThread` of `debugService.ts` recovers the
owning thread id of a handle or frame id without any lookup table, inverting
the multiplier scheme. -/
def idThread (ref : Nat) : Nat := ref / STACK_THREAD_MULTIPLIER

/-- The `Variable` descriptor record of `variableManager.ts`. -/
structure Variable where
  id : String
  threadId : Nat
  name : String
  meta : Option String
  lines : Option Nat
deriving Repr, DecidableEq

/-- Modelled from the spec: the external `Handles` allocator of
vscode-debugadapter — a monotonically increasing sequence number starting at
the constructor's start value; `create` stores the descriptor under the next
sequence value, `get` is a plain map lookup that yields not-found for absent
handles. -/
structure Handles where
  nextHandle : Nat
  entries : List (Nat × Variable)
deriving Repr, DecidableEq

def Handles.create (h : Handles) (v : Variable) : Nat × Handles :=
  (h.nextHandle, ⟨h.nextHandle + 1, jsSet h.entries h.nextHandle v⟩)

def Handles.get (h : Handles) (n : Nat) : Option Variable :=
  jsGet h.entries n

/-- The handle state of `VariableManager`: its `Map<number, Handles>` keyed by
thread id. -/
structure VMState where
  handles : List (Nat × Handles)
deriving Repr, DecidableEq

def vmEmpty : VMState := ⟨[]⟩

/-- `resetHandle` of `variableManager.ts`: replace the thread's table by a
fresh empty allocator starting at `STACK_THREAD_MULTIPLIER * threadId`. -/
def resetHandle (s : VMState) (t : Nat) : VMState :=
  ⟨jsSet s.handles t ⟨STACK_THREAD_MULTIPLIER * t, []⟩⟩

/-- `variableHandles`: the thread's current table, created via `resetHandle`
on first use. -/
def variableHandles (s : VMState) (t : Nat) : Handles × VMState :=
  match jsGet s.handles t with
  | some h => (h, s)
  | none => (⟨STACK_THREAD_MULTIPLIER * t, []⟩, resetHandle s t)

/-- The two argument shapes of `createVariable`: a full `DebugVariable` wire
record, or a plain `{id, name}` pair. -/
inductive VarSource where
  | adt (v : DebugVariable)
  | plain (id name : String)

/-- The descriptor `createVariable` stores for each argument shape. -/
def descriptorOf (t : Nat) : VarSource → Variable
  | .adt v => ⟨v.ID, t, v.NAME, some v.META_TYPE, some v.TABLE_LINES⟩
  | .plain id name => ⟨id, t, name, none, none⟩

/-- `createVariable`: allocate the next handle of the thread's table (creating
the table first if absent) and store the descriptor under it. -/
def createVariable (s : VMState) (t : Nat) (src : VarSource) : Nat × VMState :=
  let p := variableHandles s t
  let q := p.1.create (descriptorOf t src)
  (q.1, ⟨jsSet p.2.handles t q.2⟩)

/-- The lookup path of `getVariables` and `setVariable`: decode the owning
thread from the reference, then look the reference up in that thread's
table. -/
def lookupRef (s : VMState) (ref : Nat) : Option Variable × VMState :=
  let p := variableHandles s (idThread ref)
  (p.1.get ref, p.2)

theorem jsGet_none_of_all_ne {κ α : Type} [BEq κ] [LawfulBEq κ] (o : List (κ × α)) (k : κ)
    (h : ∀ p ∈ o, ¬p.1 = k) : jsGet o k = none := by
  induction o with
  | nil => rfl
  | cons p rest ih =>
    show (match jsGet rest k with
      | some r => some r
      | none => if p.1 == k then some p.2 else none) = none
    rw [ih fun q hq => h q (List.mem_cons_of_mem _ hq), if_neg]
    simpa using h p (List.mem_cons_self _ _)

theorem jsGet_map_overwrite {κ α : Type} [BEq κ] [LawfulBEq κ] (o : List (κ × α)) (k : κ)
    (v : α) (hany : o.any (fun e => e.1 == k) = true) :
    jsGet (o.map fun e => if e.1 == k then (k, v) else e) k = some v := by
  induction o with
  | nil => simp at hany
  | cons p rest ih =>
    rw [List.map_cons]
    show (match jsGet (rest.map fun e => if e.1 == k then (k, v) else e) k with
      | some r => some r
      | none =>
        if (if p.1 == k then (k, v) else p).1 == k
        then some (if p.1 == k then (k, v) else p).2 else none) = some v
    by_cases hr : rest.any (fun e => e.1 == k) = true
    · rw [ih hr]
    · have hnone : jsGet (rest.map fun e => if e.1 == k then (k, v) else e) k = none := by
        apply jsGet_none_of_all_ne
        intro q hq
        obtain ⟨e, he, heq⟩ := List.mem_map.mp hq
        have hek : (e.1 == k) = false := by
          rw [Bool.eq_false_iff]
          intro hc
          exact hr (List.any_eq_true.mpr ⟨e, he, hc⟩)
        rw [← heq]
        simp [hek]
        simpa using hek
      rw [hnone]
      have hp : (p.1 == k) = true := by
        rcases List.any_eq_true.mp hany with ⟨e, he, hek⟩
        rcases List.mem_cons.mp he with h | h
        · rw [← h]; exact hek
        · exact absurd (List.any_eq_true.mpr ⟨e, h, hek⟩) hr
      simp [hp]

theorem jsGet_append {κ α : Type} [BEq κ] (a b : List (κ × α)) (k : κ) :
    jsGet (a ++ b) k =
      match jsGet b k with
      | some r => some r
      | none => jsGet a k := by
  induction a with
  | nil =>
    show jsGet b k = _
    cases jsGet b k <;> rfl
  | cons p rest ih =>
    show (match jsGet (rest ++ b) k with
      | some r => some r
      | none => if p.1 == k then some p.2 else none) = _
    rw [ih]
    cases jsGet b k
    · rfl
    · cases jsGet rest k <;> rfl

/-- Setting a key and reading it back yields the written value, whether the
key was present or appended. -/
theorem jsGet_jsSet {κ α : Type} [BEq κ] [LawfulBEq κ] (o : List (κ × α)) (k : κ) (v : α) :
    jsGet (jsSet o k v) k = some v := by
  unfold jsSet
  split
  case isTrue hany => exact jsGet_map_overwrite o k v hany
  case isFalse hany =>
    rw [jsGet_append]
    show (match (if k == k then some v else none : Option α) with
      | some r => some r
      | none => jsGet o k) = some v
    simp

/-- `createVariable` hands out the thread table's current sequence value and
the new handle resolves to the stored descriptor afterwards. -/
theorem createVariable_fresh (s : VMState) (t : Nat) (src : VarSource) :
    (createVariable s t src).1 = ((variableHandles s t).1).nextHandle ∧
    ((variableHandles (createVariable s t src).2 t).1).get (createVariable s t src).1
      = some (descriptorOf t src) := by
  refine ⟨rfl, ?_⟩
  show ((variableHandles ⟨jsSet (variableHandles s t).2.handles t
      ⟨_ + 1, jsSet (variableHandles s t).1.entries _ (descriptorOf t src)⟩⟩ t).1).get
      ((variableHandles s t).1).nextHandle = some (descriptorOf t src)
  unfold variableHandles
  rw [jsGet_jsSet]
  exact jsGet_jsSet _ _ _

/-- Counterexample to C3 as stated: allocate a handle for thread 7, reset the
thread, allocate again — the new handle has the same numeric value as the old
one, and looking the old value up now succeeds (finding the new descriptor)
instead of yielding not-found. -/
theorem resetHandle_reused_value_found :
    (createVariable vmEmpty 7 (.plain "X" "X")).1
        = (createVariable (resetHandle (createVariable vmEmpty 7 (.plain "X" "X")).2 7) 7
            (.plain "Y" "Y")).1 ∧
    (lookupRef
        (createVariable (resetHandle (createVariable vmEmpty 7 (.plain "X" "X")).2 7) 7
          (.plain "Y" "Y")).2
        (createVariable vmEmpty 7 (.plain "X" "X")).1).1
      = some ⟨"Y", 7, "Y", none, none⟩ := by
  constructor
  · rfl
  · rfl

/-- C3 (amended): immediately after `reset(threadId)` every lookup of a
pre-reset handle of that thread yields not-found; but the sequence restarts at
the same per-thread base, so the very next allocation reuses the old numeric
value, and a lookup of that value then resolves to the newly stored
descriptor (never the pre-reset one). -/
theorem resetHandle_invalidates_until_reuse :
    (∀ (s : VMState) (t ref : Nat), idThread ref = t →
      (lookupRef (resetHandle s t) ref).1 = none) ∧
    (∀ (s : VMState) (t : Nat) (src : VarSource),
      (createVariable (resetHandle s t) t src).1 = STACK_THREAD_MULTIPLIER * t ∧
      (lookupRef (createVariable (resetHandle s t) t src).2
          (createVariable (resetHandle s t) t src).1).1 = some (descriptorOf t src)) := by
  constructor
  · intro s t ref hdec
    show ((variableHandles (resetHandle s t) (idThread ref)).1).get ref = none
    rw [hdec]
    unfold variableHandles resetHandle
    rw [jsGet_jsSet]
    rfl
  · intro s t src
    have hbase : ((variableHandles (resetHandle s t) t).1).nextHandle
        = STACK_THREAD_MULTIPLIER * t := by
      unfold variableHandles resetHandle
      rw [jsGet_jsSet]
    obtain ⟨h1, h2⟩ := createVariable_fresh (resetHandle s t) t src
    have hval : (createVariable (resetHandle s t) t src).1 = STACK_THREAD_MULTIPLIER * t :=
      h1.trans hbase
    refine ⟨hval, ?_⟩
    show ((variableHandles (createVariable (resetHandle s t) t src).2
        (idThread (createVariable (resetHandle s t) t src).1)).1).get
        (createVariable (resetHandle s t) t src).1 = some (descriptorOf t src)
    have hdec : idThread (createVariable (resetHandle s t) t src).1 = t := by
      rw [hval]
      exact Nat.mul_div_cancel_left t (by decide)
    rw [hdec]
    exact h2

/-- Witness for C3 (amended): thread 7, a concrete reset and reallocation. -/
theorem resetHandle_invalidates_until_reuse_witness :
    (lookupRef (resetHandle vmEmpty 7) 7000000).1 = none ∧
    (lookupRef (createVariable (resetHandle vmEmpty 7) 7 (.plain "Z" "Z")).2
        (createVariable (resetHandle vmEmpty 7) 7 (.plain "Z" "Z")).1).1
      = some ⟨"Z", 7, "Z", none, none⟩ :=
  ⟨resetHandle_invalidates_until_reuse.1 vmEmpty 7 7000000 (by decide),
    (resetHandle_invalidates_until_reuse.2 vmEmpty 7 (.plain "Z" "Z")).2⟩

end AbapFs

namespace AbapFs

mutual

/-- The JSON serialization applied by `evaluate`'s `json(...)` branch
(`JSON.stringify(json, null, 1)`), modelled without the pretty-printing
whitespace: the claims compare the display value against this same fixed
serialization of the materialized tree. -/
def jsonStringify : JsValue → String
  | .undefined => "undefined"
  | .num s => s
  | .str s => "\"" ++ s ++ "\""
  | .obj fs => "\x7b" ++ stringifyFields fs ++ "\x7d"
  | .arr es => "[" ++ stringifyElems es ++ "]"

def stringifyFields : List (String × JsValue) → String
  | [] => ""
  | (k, v) :: rest =>
    "\"" ++ k ++ "\":" ++ jsonStringify v ++ (if rest.isEmpty then "" else ",") ++
      stringifyFields rest

def stringifyElems : List JsValue → String
  | [] => ""
  | v :: rest => jsonStringify v ++ (if rest.isEmpty then "" else ",") ++ stringifyElems rest

end

/-- JavaScript whitespace as matched by the regex class in `\s`. -/
def jsWs (c : Char) : Bool := c.isWhitespace

/-- The match of `expression.match(/^json\((.*)\)\s*$/)`: the expression must
start with `json(`, the greedy dot cannot cross line terminators, and the
capture extends to the last `)` that is followed only by whitespace. -/
def jsonCapture (cs : List Char) : Option (List Char) :=
  if "json(".data.isPrefixOf cs then
    let u := ((cs.drop 5).reverse.dropWhile jsWs).reverse
    if u.getLast? = some ')' then
      if (u.dropLast).all (fun c => !(c = '\n') && !(c = '\r')) then some u.dropLast
      else none
    else none
  else none

/-- The remote session surface consumed by `evaluate` and `setVariable`:
thread-wise client availability, the fallible single-expression fetch
(`debuggerVariables([expression])`), the reachable variable tree per path
(consumed by `dumpJson`), and the fallible remote value write. -/
structure DebugEnv where
  hasClient : Nat → Bool
  evalFetch : String → Except Unit (List DebugVariable)
  tree : String → Option DTree
  setVarValue : String → String → Except Unit String

/-- `dumpJson` entered with a path name: fetch the variable first and return
`undefined` when it is absent. -/
def dumpJsonName (env : DebugEnv) (nm : String) : JsValue :=
  match env.tree nm with
  | none => .undefined
  | some t => dumpJson t

/-- The body of a DAP evaluate response as produced by `evaluate`. -/
structure EvalBody where
  result : String
  variablesReference : Nat
deriving Repr, DecidableEq

/-- The thread decoding `frameId && idThread(frameId)` at the top of
`evaluate`: an absent frame id, the falsy frame id 0 and the falsy decoded
thread id 0 all yield no thread. -/
def evalThread (frameId : Option Nat) : Option Nat :=
  match frameId with
  | none => none
  | some f => if f = 0 then none else if idThread f = 0 then none else some (idThread f)

/-- `variableReference`: complex meta types get a freshly allocated handle,
simple and string values get 0. -/
def variableReference (s : VMState) (t : Nat) (v : DebugVariable) : Nat × VMState :=
  if debugMetaIsComplex v.META_TYPE then createVariable s t (.adt v) else (0, s)

/-- The non-`json` tail of `evaluate`: fetch the single variable, give up
(undefined) when the fetch fails or returns nothing, otherwise format the
value and attach a reference. -/
def evaluateVar (env : DebugEnv) (s : VMState) (expr : String) (tid : Nat) :
    Option EvalBody × VMState :=
  match env.evalFetch expr with
  | .error _ => (none, s)
  | .ok vs =>
    match vs.head? with
    | none => (none, s)
    | some v0 =>
      let p := variableReference s tid v0
      (some ⟨variableValue v0, p.1⟩, p.2)

/-- `evaluate` of `variableManager.ts`: decode the thread (undefined when
falsy), require a client (undefined when absent), recognize `json(<inner>)`
with a non-empty capture and answer with the serialized `dumpJson` of the
inner expression and reference 0, otherwise resolve the expression as a
single variable; every failure path degrades to no result (the enclosing
try/catch swallows faults). -/
def evaluate (env : DebugEnv) (s : VMState) (expr : String) (frameId : Option Nat) :
    Option EvalBody × VMState :=
  match evalThread frameId with
  | none => (none, s)
  | some tid =>
    if env.hasClient tid then
      match jsonCapture expr.data with
      | some core =>
        if core.isEmpty then evaluateVar env s expr tid
        else (some ⟨jsonStringify (dumpJsonName env (String.mk core)), 0⟩, s)
      | none => evaluateVar env s expr tid
    else (none, s)

/-- The outcome of `setVariable`. -/
structure SetVarResult where
  value : String
  success : Bool
deriving Repr, DecidableEq

/-- `setVariable` of `variableManager.ts`: decode the thread, require a
client, look the reference up in that thread's table — an absent handle makes
`h.id` throw, which the surrounding try/catch converts into
`{value: "", success: false}` before any remote call is issued; a found
handle computes the target path (`name` verbatim for synthetic `@` scopes,
`"<container>-<name>"` upper-cased otherwise) and issues the remote write,
whose failure degrades the same way.  The third component records the remote
`setVariableValue` calls issued. -/
def setVariable (env : DebugEnv) (s : VMState) (reference : Nat) (name input : String) :
    SetVarResult × VMState × List (String × String) :=
  let tid := idThread reference
  if env.hasClient tid then
    let p := variableHandles s tid
    match p.1.get reference with
    | none => (⟨"", false⟩, p.2, [])
    | some hv =>
      let varPath :=
        if hv.id.startsWith "@" then name else (hv.name ++ "-" ++ name).toUpper
      match env.setVarValue varPath input with
      | .ok value => (⟨value, true⟩, p.2, [(varPath, input)])
      | .error _ => (⟨"", false⟩, p.2, [(varPath, input)])
  else (⟨"", false⟩, s, [])

theorem jsonCapture_concat (inner : List Char)
    (hnl : inner.all (fun c => !(c = '\n') && !(c = '\r')) = true) :
    jsonCapture ("json(".data ++ inner ++ [')']) = some inner := by
  have hpre : "json(".data.isPrefixOf ("json(".data ++ inner ++ [')']) = true := by
    rw [List.isPrefixOf_iff_prefix, List.append_assoc]
    exact List.prefix_append _ _
  have hdrop : ("json(".data ++ inner ++ [')']).drop 5 = inner ++ [')'] := by
    rw [List.append_assoc]
    exact List.drop_left' rfl
  have hrev : (inner ++ [')']).reverse = ')' :: inner.reverse := by
    rw [List.reverse_append]
    rfl
  have hdw : List.dropWhile jsWs (')' :: inner.reverse) = ')' :: inner.reverse := by
    rw [List.dropWhile_cons, if_neg]
    simp [jsWs]
  simp only [jsonCapture, hpre, if_true, hdrop, hrev, hdw, List.reverse_cons,
    List.reverse_reverse, List.getLast?_concat, List.dropLast_concat, hnl]

end AbapFs

namespace AbapFs

theorem evaluate_thread_known (env : DebugEnv) (s : VMState) (expr : String)
    (frameId : Option Nat) (tid : Nat) (htid : evalThread frameId = some tid) :
    evaluate env s expr frameId =
      if env.hasClient tid then
        match jsonCapture expr.data with
        | some core =>
          if core.isEmpty then evaluateVar env s expr tid
          else (some ⟨jsonStringify (dumpJsonName env (String.mk core)), 0⟩, s)
        | none => evaluateVar env s expr tid
      else (none, s) := by
  unfold evaluate
  rw [htid]

/-- C5: when the expression has the shape `json(<inner>)` with a non-empty
inner expression, `evaluate` answers with the JSON serialization of
`dumpJson(<inner>)` as display value and reference 0; any other expression
that resolves to a variable is answered with its formatted display value, the
reference being a freshly allocated handle when the meta type is complex and
0 otherwise. -/
theorem evaluate_json_and_variable (env : DebugEnv) (s : VMState) (frameId : Option Nat)
    (tid : Nat) (htid : evalThread frameId = some tid) (hcl : env.hasClient tid = true) :
    (∀ inner : List Char, inner ≠ [] →
      inner.all (fun c => !(c = '\n') && !(c = '\r')) = true →
      evaluate env s (String.mk ("json(".data ++ inner ++ [')'])) frameId
        = (some ⟨jsonStringify (dumpJsonName env (String.mk inner)), 0⟩, s)) ∧
    (∀ (expr : String) (v0 : DebugVariable) (rest : List DebugVariable),
      jsonCapture expr.data = none →
      env.evalFetch expr = .ok (v0 :: rest) →
      evaluate env s expr frameId
          = (some ⟨variableValue v0, (variableReference s tid v0).1⟩,
              (variableReference s tid v0).2) ∧
        (debugMetaIsComplex v0.META_TYPE = false → (variableReference s tid v0).1 = 0) ∧
        (debugMetaIsComplex v0.META_TYPE = true →
          (variableReference s tid v0).1 = ((variableHandles s tid).1).nextHandle ∧
          ((variableHandles (variableReference s tid v0).2 tid).1).get
              (variableReference s tid v0).1 = some (descriptorOf tid (.adt v0)))) := by
  constructor
  · intro inner hne hnl
    rw [evaluate_thread_known env s _ frameId tid htid, hcl, if_pos rfl]
    have hdata : (String.mk ("json(".data ++ inner ++ [')'])).data
        = "json(".data ++ inner ++ [')'] := rfl
    rw [hdata, jsonCapture_concat inner hnl]
    have hemp : inner.isEmpty = false := by
      cases inner
      · exact absurd rfl hne
      · rfl
    show (if inner.isEmpty = true then
        evaluateVar env s (String.mk ("json(".data ++ inner ++ [')'])) tid
      else (some ⟨jsonStringify (dumpJsonName env (String.mk inner)), 0⟩, s)) = _
    rw [hemp]
    rfl
  · intro expr v0 rest hjson hfetch
    refine ⟨?_, ?_, ?_⟩
    · rw [evaluate_thread_known env s expr frameId tid htid, hcl, if_pos rfl, hjson]
      unfold evaluateVar
      rw [hfetch]
      rfl
    · intro hsimple
      unfold variableReference
      rw [hsimple]
      rfl
    · intro hcomplex
      unfold variableReference
      rw [hcomplex, if_pos rfl]
      exact createVariable_fresh s tid (.adt v0)

/-- A remote session answering every fetch with a simple character variable
carrying the value `"X"`. -/
def envEval : DebugEnv :=
  ⟨fun _ => true, fun e => .ok [⟨e, e, "simple", "C", "X", 0⟩],
    fun _ => some (.node ⟨"LT", "LT", "string", "", "A", 0⟩ []), fun _ _ => .error ()⟩

/-- Witness for C5: a concrete `json(LT)` evaluation and a concrete plain
variable evaluation. -/
theorem evaluate_json_and_variable_witness :
    evaluate envEval vmEmpty (String.mk ("json(".data ++ ['L', 'T'] ++ [')'])) (some 3000000)
        = (some ⟨jsonStringify (dumpJsonName envEval (String.mk ['L', 'T'])), 0⟩, vmEmpty) ∧
    (evaluate envEval vmEmpty "LV" (some 3000000)).1 = some ⟨"X", 0⟩ := by
  have h := evaluate_json_and_variable envEval vmEmpty (some 3000000) 3 rfl rfl
  constructor
  · exact h.1 ['L', 'T'] (by decide) (by decide)
  · have h2 := (h.2 "LV" ⟨"LV", "LV", "simple", "C", "X", 0⟩ [] (by decide) rfl).1
    rw [h2]
    rfl

/-- A session with a client but no usable thread data: fetch always fails. -/
def envNoThread : DebugEnv :=
  ⟨fun _ => true, fun _ => .error (), fun _ => none, fun _ _ => .error ()⟩

/-- A session with no client for any thread. -/
def envNoClient : DebugEnv :=
  ⟨fun _ => false, fun _ => .ok [], fun _ => none, fun _ _ => .error ()⟩

/-- Counterexample to C6 as stated: with an absent frame id, with no client
for the thread, and with a failing fetch, `evaluate` yields the silent
no-result `undefined` to its caller — it signals no typed error condition on
any of these paths. -/
theorem evaluate_silent_undefined :
    (evaluate envNoThread vmEmpty "FOO" none).1 = none ∧
    (evaluate envNoClient vmEmpty "FOO" (some 3000000)).1 = none ∧
    (evaluate envNoThread vmEmpty "FOO" (some 3000000)).1 = none := by
  refine ⟨rfl, rfl, by decide⟩

/-- C6 (amended): when the frame's thread id is absent or undecodable, when
no client is available for the thread, or when the underlying fetch fails,
`evaluate` returns no result (the JavaScript `undefined`) with the handle
state unchanged, rather than raising or signalling a typed error. -/
theorem evaluate_degrades_to_undefined (env : DebugEnv) (s : VMState) (expr : String)
    (frameId : Option Nat) :
    (evalThread frameId = none → evaluate env s expr frameId = (none, s)) ∧
    (∀ tid, evalThread frameId = some tid → env.hasClient tid = false →
      evaluate env s expr frameId = (none, s)) ∧
    (∀ tid, evalThread frameId = some tid → env.hasClient tid = true →
      jsonCapture expr.data = none → env.evalFetch expr = Except.error () →
      evaluate env s expr frameId = (none, s)) := by
  refine ⟨?_, ?_, ?_⟩
  · intro h
    unfold evaluate
    rw [h]
  · intro tid htid hcl
    rw [evaluate_thread_known env s expr frameId tid htid, hcl]
    rfl
  · intro tid htid hcl hjson hfetch
    rw [evaluate_thread_known env s expr frameId tid htid, hcl, if_pos rfl, hjson]
    unfold evaluateVar
    rw [hfetch]

/-- Witness for C6 (amended): the three degraded paths at concrete inputs. -/
theorem evaluate_degrades_to_undefined_witness :
    evaluate envNoThread vmEmpty "FOO" none = (none, vmEmpty) ∧
    evaluate envNoClient vmEmpty "FOO" (some 3000000) = (none, vmEmpty) ∧
    evaluate envNoThread vmEmpty "FOO" (some 3000000) = (none, vmEmpty) :=
  ⟨(evaluate_degrades_to_undefined envNoThread vmEmpty "FOO" none).1 rfl,
    (evaluate_degrades_to_undefined envNoClient vmEmpty "FOO" (some 3000000)).2.1 3 rfl rfl,
    (evaluate_degrades_to_undefined envNoThread vmEmpty "FOO" (some 3000000)).2.2 3 rfl rfl
      (by decide) rfl⟩

/-- C10: a reference whose handle is not present in its thread's table (for
example after a reset) makes `setVariable` return `{value: "", success: false}`
without raising and without issuing any remote `setVariableValue` call; this
is exactly the result a remote write failure produces. -/
theorem setVariable_missing_handle_degrades (env : DebugEnv) (s : VMState) (ref : Nat)
    (name input : String)
    (hmiss : ((variableHandles s (idThread ref)).1).get ref = none) :
    (setVariable env s ref name input).1 = ⟨"", false⟩ ∧
    (setVariable env s ref name input).2.2 = [] ∧
    (∀ (envF : DebugEnv) (sF : VMState) (refF : Nat) (nF iF : String) (hvF : Variable),
      envF.hasClient (idThread refF) = true →
      ((variableHandles sF (idThread refF)).1).get refF = some hvF →
      envF.setVarValue
          (if hvF.id.startsWith "@" then nF else (hvF.name ++ "-" ++ nF).toUpper) iF
        = Except.error () →
      (setVariable envF sF refF nF iF).1 = ⟨"", false⟩) := by
  have hfail : ∀ (envF : DebugEnv) (sF : VMState) (refF : Nat) (nF iF : String)
      (hvF : Variable), envF.hasClient (idThread refF) = true →
      ((variableHandles sF (idThread refF)).1).get refF = some hvF →
      envF.setVarValue
          (if hvF.id.startsWith "@" then nF else (hvF.name ++ "-" ++ nF).toUpper) iF
        = Except.error () →
      (setVariable envF sF refF nF iF).1 = ⟨"", false⟩ := by
    intro envF sF refF nF iF hvF hclF hgetF hw
    unfold setVariable
    simp only [hclF, hgetF, hw]
    rfl
  by_cases hcl : env.hasClient (idThread ref) = true
  · refine ⟨?_, ?_, hfail⟩ <;>
      (unfold setVariable; simp only [hcl, hmiss]; rfl)
  · rw [Bool.not_eq_true] at hcl
    refine ⟨?_, ?_, hfail⟩ <;> (unfold setVariable; simp only [hcl]; rfl)

/-- Witness for C10: a missing handle for reference 5 on the empty state, and
a failing remote write for a found handle. -/
theorem setVariable_missing_handle_degrades_witness :
    (setVariable envNoThread vmEmpty 5 "N" "1").1 = ⟨"", false⟩ ∧
    (setVariable envNoThread vmEmpty 5 "N" "1").2.2 = [] := by
  have h := setVariable_missing_handle_degrades envNoThread vmEmpty 5 "N" "1" (by decide)
  exact ⟨h.1, h.2.1⟩

end AbapFs

namespace AbapFs

/-- The outcomes one long-poll `listenForDebuggee` call can have, as the loop
distinguishes them: a usable debuggee payload; a falsy or listener-error
payload (checked with `isDebugListenerError`, ignored); or a thrown failure,
where the external `isAdtError` recognizes the listener-timeout condition. -/
inductive PollOutcome where
  | debuggee
  | listenerError
  | failure (timeout : Bool)
deriving Repr, DecidableEq

/-- One long-poll round: its outcome and whether `stopListener` deregistered
the connection while the call was in flight. -/
structure PollEvent where
  outcome : PollOutcome
  stopDuring : Bool
deriving Repr, DecidableEq

/-- The externally observable actions of a listener loop run. -/
inductive LoopAction where
  | deregister
  | startSession
  | delay (ms : Nat)
deriving Repr, DecidableEq

/-- `runListenerLoop` of `ExternalBreakpointManager`, as a recursion over the
long-poll outcomes: while the connection stays registered, poll; when the
connection was deregistered during the poll, exit without acting on the
result; on a usable debuggee, deregister the connection, start the attach
session and exit; on a listener-error payload, loop; on any thrown failure,
wait the fixed 1000 ms backoff and loop.  An exhausted event list stands for
a poll that never returns. -/
def runListenerLoop (reg : Bool) : List PollEvent → List LoopAction
  | [] => []
  | e :: rest =>
    if reg then
      match e.outcome with
      | .debuggee =>
        if !e.stopDuring then [.deregister, .startSession] else []
      | .listenerError =>
        if !e.stopDuring then runListenerLoop (!e.stopDuring) rest else []
      | .failure _ => .delay 1000 :: runListenerLoop (!e.stopDuring) rest
    else []

/-- C7: each `startListener` loop performs the handoff at most once — every
run is a (possibly empty) sequence of backoff delays, optionally closed by
deregistering the connection immediately followed by the one session start;
and when the connection is deregistered while the long poll is in flight, a
debuggee result arriving afterwards is ignored and no session is started. -/
theorem runListenerLoop_single_handoff :
    ∀ (evs : List PollEvent) (reg : Bool),
      (∃ pre, (LoopAction.startSession ∉ pre ∧ LoopAction.deregister ∉ pre) ∧
        (runListenerLoop reg evs = pre ∨
          runListenerLoop reg evs = pre ++ [.deregister, .startSession])) ∧
      ((∀ e ∈ evs, e.outcome = .debuggee → e.stopDuring = true) →
        LoopAction.startSession ∉ runListenerLoop reg evs) := by
  intro evs
  induction evs with
  | nil =>
    intro reg
    exact ⟨⟨[], by simp, Or.inl rfl⟩, fun _ => by simp [runListenerLoop]⟩
  | cons e rest ih =>
    intro reg
    by_cases hreg : reg
    · subst hreg
      match ho : e.outcome with
      | .debuggee =>
        by_cases hstop : e.stopDuring = true
        · have hrun : runListenerLoop true (e :: rest) = [] := by
            simp [runListenerLoop, ho, hstop]
          exact ⟨⟨[], by simp, Or.inl hrun⟩, fun _ => by simp [hrun]⟩
        · rw [Bool.not_eq_true] at hstop
          have hrun : runListenerLoop true (e :: rest) = [.deregister, .startSession] := by
            simp [runListenerLoop, ho, hstop]
          refine ⟨⟨[], by simp, Or.inr (by simp [hrun])⟩, fun hall => ?_⟩
          have := hall e (List.mem_cons_self _ _) ho
          rw [this] at hstop
          cases hstop
      | .listenerError =>
        by_cases hstop : e.stopDuring = true
        · have hrun : runListenerLoop true (e :: rest) = [] := by
            simp [runListenerLoop, ho, hstop]
          exact ⟨⟨[], by simp, Or.inl hrun⟩, fun _ => by simp [hrun]⟩
        · rw [Bool.not_eq_true] at hstop
          have hrun : runListenerLoop true (e :: rest) = runListenerLoop true rest := by
            simp [runListenerLoop, ho, hstop]
          obtain ⟨⟨pre, hpre, hc⟩, hstopcase⟩ := ih true
          refine ⟨⟨pre, hpre, by rw [hrun]; exact hc⟩, fun hall => ?_⟩
          rw [hrun]
          exact hstopcase fun q hq => hall q (List.mem_cons_of_mem _ hq)
      | .failure tm =>
        have hrun : runListenerLoop true (e :: rest)
            = .delay 1000 :: runListenerLoop (!e.stopDuring) rest := by
          simp [runListenerLoop, ho]
        obtain ⟨⟨pre, hpre, hc⟩, hstopcase⟩ := ih (!e.stopDuring)
        refine ⟨⟨.delay 1000 :: pre, ?_, ?_⟩, fun hall => ?_⟩
        · constructor
          · intro hc'
            rcases List.mem_cons.mp hc' with h | h
            · cases h
            · exact hpre.1 h
          · intro hc'
            rcases List.mem_cons.mp hc' with h | h
            · cases h
            · exact hpre.2 h
        · rw [hrun]
          rcases hc with h | h
          · exact Or.inl (by rw [h])
          · exact Or.inr (by rw [h]; rfl)
        · rw [hrun]
          intro hc'
          rcases List.mem_cons.mp hc' with h | h
          · cases h
          · exact hstopcase (fun q hq => hall q (List.mem_cons_of_mem _ hq)) h
    · rw [Bool.not_eq_true] at hreg
      subst hreg
      have hrun : runListenerLoop false (e :: rest) = [] := by
        simp [runListenerLoop]
      exact ⟨⟨[], by simp, Or.inl hrun⟩, fun _ => by simp [hrun]⟩

/-- Witness for C7: a timeout poll followed by a successful debuggee poll
still produces exactly one deregistration and one session start. -/
theorem runListenerLoop_single_handoff_witness :
    runListenerLoop true [⟨.failure true, false⟩, ⟨.debuggee, false⟩]
        = [.delay 1000, .deregister, .startSession] ∧
    LoopAction.startSession ∉
      runListenerLoop true [⟨.debuggee, true⟩, ⟨.debuggee, true⟩] := by
  constructor
  · rfl
  · exact (runListenerLoop_single_handoff [⟨.debuggee, true⟩, ⟨.debuggee, true⟩] true).2
      (by intro e he _; fin_cases he <;> rfl)

/-- Counterexample to C8 as stated: a long-poll failure recognized as the
listener-timeout condition is still followed by the fixed 1000 ms backoff
before the next poll — the loop does not re-issue the poll immediately, and
timeouts are treated exactly like any other failure. -/
theorem listener_timeout_still_delays :
    runListenerLoop true [⟨.failure true, false⟩] = [.delay 1000] ∧
    runListenerLoop true [⟨.failure false, false⟩] = [.delay 1000] :=
  ⟨rfl, rfl⟩

/-- C8 (amended): every thrown long-poll failure — the recognized listener
timeout included — makes the loop wait the fixed 1-second backoff before
re-issuing the poll; no failure kind re-polls immediately. -/
theorem listener_failure_fixed_backoff (tm stop : Bool) (rest : List PollEvent) :
    runListenerLoop true (⟨.failure tm, stop⟩ :: rest)
      = .delay 1000 :: runListenerLoop (!stop) rest := rfl

end AbapFs

namespace AbapFs

/-- The listener-manager state of `ExternalBreakpointManager`: the connection
ids with a registered listener, and one entry per listener loop currently
running (each loop owns the single in-flight `listenForDebuggee` poll of its
connection). -/
structure ListenerState where
  listeners : List String
  loops : List String
deriving Repr, DecidableEq

/-- The observable outcome of `startListener`: the refusal message shown when
a listener already runs for the connection, the error message when creating
the listener fails, or a successful start. -/
inductive StartOutcome where
  | alreadyRunning
  | failed
  | started
deriving Repr, DecidableEq

/-- `startListener` of `ExternalBreakpointManager`: refuse — with a visible
message, leaving all state untouched — when the connection already has a
listener; otherwise create the listener (reporting failure when no client is
available), register it and start its single loop. -/
def startListener (clientOk : String → Bool) (st : ListenerState) (connId : String) :
    StartOutcome × ListenerState :=
  if st.listeners.contains connId then (.alreadyRunning, st)
  else if clientOk connId then
    (.started, ⟨connId :: st.listeners, connId :: st.loops⟩)
  else (.failed, st)

/-- C9: for a connection that already has an active listener, `startListener`
refuses: the refusal is reported (a distinct outcome carrying the user-visible
message, not a silent no-op), the state — and with it the set of loops — is
unchanged; and the one-loop-per-connection invariant (hence at most one
in-flight `listenForDebuggee` call per connection) is preserved by every
`startListener` call. -/
theorem startListener_refuses_duplicate :
    (∀ (clientOk : String → Bool) (st : ListenerState) (connId : String),
      connId ∈ st.listeners →
      startListener clientOk st connId = (.alreadyRunning, st)) ∧
    (∀ (clientOk : String → Bool) (st : ListenerState) (connId : String),
      st.loops.Nodup → (∀ c, c ∈ st.loops ↔ c ∈ st.listeners) →
      (startListener clientOk st connId).2.loops.Nodup ∧
        ∀ c, c ∈ (startListener clientOk st connId).2.loops ↔
          c ∈ (startListener clientOk st connId).2.listeners) := by
  constructor
  · intro clientOk st connId hmem
    unfold startListener
    rw [if_pos (List.elem_eq_true_of_mem hmem)]
  · intro clientOk st connId hnd hiff
    by_cases hmem : st.listeners.contains connId = true
    · unfold startListener
      rw [if_pos hmem]
      exact ⟨hnd, hiff⟩
    · by_cases hok : clientOk connId = true
      · unfold startListener
        rw [if_neg hmem, if_pos hok]
        constructor
        · refine List.Nodup.cons ?_ hnd
          intro hc
          exact hmem (List.elem_eq_true_of_mem ((hiff connId).mp hc))
        · intro c
          simp only [List.mem_cons]
          rw [hiff c]
      · unfold startListener
        rw [if_neg hmem, if_neg hok]
        exact ⟨hnd, hiff⟩

/-- Witness for C9: a duplicate start for connection `C1` is refused and
leaves the single loop in place. -/
theorem startListener_refuses_duplicate_witness :
    startListener (fun _ => true) ⟨["C1"], ["C1"]⟩ "C1"
        = (.alreadyRunning, ⟨["C1"], ["C1"]⟩) ∧
    (startListener (fun _ => true) ⟨["C1"], ["C1"]⟩ "C1").2.loops.Nodup :=
  ⟨startListener_refuses_duplicate.1 (fun _ => true) ⟨["C1"], ["C1"]⟩ "C1" (by decide),
    (startListener_refuses_duplicate.2 (fun _ => true) ⟨["C1"], ["C1"]⟩ "C1" (by decide)
      fun _ => Iff.rfl).1⟩

end AbapFs
